import Mathlib

/-!
Verification of the node-partitioned mesh reader (`FileIO::NodePartitionedMeshReader`)
and the mesh-editing `ElementExtraction` class of this repository.

The repository ships only the header files of both classes; every member
function body lives in translation units that are not part of `src/`.  The
definitions below therefore model the missing implementations from the
specification (`spec.md`) and from the doc comments of the headers, and the
theorems settle the claims against those models.

Modelling conventions:
* 64-bit signed integers of the files (`long`) are `Int`;
* `double` coordinate payloads are never interpreted arithmetically by the
  reader — they are copied verbatim — so each coordinate is modelled as an
  opaque 64-bit payload represented by an `Int`;
* a file system is a map from file names to decoded stream contents; a
  missing file models a failed `open`;
* the P cooperating MPI ranks of one collective `read` call are modelled by
  a list of per-rank results, one entry per rank.
-/

set_option autoImplicit false

namespace OgsSpec

/-- Error kinds of the reader, from spec section 7. -/
inductive ReadError where
  | CannotOpen (path : String)
  | MalformedHeader
  | TruncatedNodeStream
  | TruncatedElementStream
  | SizeMismatch
  | OversizedChunk
  | ParseError
  | DanglingElementReference
  | PartitionCountMismatch
deriving DecidableEq, Repr

/-- Modelled from the spec: the on-disk `NodeData` record
`{ global_id : u64, x y z : f64 }` (struct `NodeData` of the header,
fields `index, x, y, z`).  The coordinate payloads are opaque 64-bit
values copied verbatim, modelled as integers. -/
structure NodeData where
  index : Nat
  x : Int
  y : Int
  z : Int
deriving DecidableEq, Repr

/-- The 14-integer partition header (struct `PartitionedMeshInfo` of the
header file): counts, stream offsets and a reserved flag. -/
structure PartitionedMeshInfo where
  nodes : Int
  base_nodes : Int
  regular_elements : Int
  ghost_elements : Int
  active_base_nodes : Int
  active_nodes : Int
  global_base_nodes : Int
  global_nodes : Int
  offset0 : Int
  offset1 : Int
  offset2 : Int
  offset3 : Int
  offset4 : Int
  extra_flag : Int
deriving DecidableEq, Repr

/-- All-zero header used as the `getD` default. -/
def defaultHeader : PartitionedMeshInfo :=
  ⟨0, 0, 0, 0, 0, 0, 0, 0, 0, 0, 0, 0, 0, 0⟩

/-- Modelled from the spec: the sentinel header broadcast by rank 0 on a
parse error (`nodes = -1`, spec section 4.5). -/
def sentinelHeader : PartitionedMeshInfo :=
  ⟨-1, 0, 0, 0, 0, 0, 0, 0, 0, 0, 0, 0, 0, 0⟩

/-- Serialize a header as its 14 integers in field order. -/
def longsOfHeader (h : PartitionedMeshInfo) : List Int :=
  [h.nodes, h.base_nodes, h.regular_elements, h.ghost_elements,
   h.active_base_nodes, h.active_nodes, h.global_base_nodes, h.global_nodes,
   h.offset0, h.offset1, h.offset2, h.offset3, h.offset4, h.extra_flag]

/-- Modelled from the spec: the header codec (spec section 4.1) — read 14
integers from the stream and return the remainder; fewer than 14 values is
a malformed header. -/
def parseHeader : List Int → Option (PartitionedMeshInfo × List Int)
  | a0 :: a1 :: a2 :: a3 :: a4 :: a5 :: a6 :: a7 :: a8 :: a9 :: a10 :: a11
      :: a12 :: a13 :: rest =>
    some (⟨a0, a1, a2, a3, a4, a5, a6, a7, a8, a9, a10, a11, a12, a13⟩, rest)
  | _ => none

/-- Parse `p` consecutive headers from a flat integer stream. -/
def parseHeaders : Nat → List Int → Except ReadError (List PartitionedMeshInfo)
  | 0, _ => .ok []
  | p + 1, s =>
    match parseHeader s with
    | none => .error .MalformedHeader
    | some (h, rest) =>
      match parseHeaders p rest with
      | .error e => .error e
      | .ok hs => .ok (h :: hs)

/-- Modelled from the spec: one decoded element record
`(material_id, type_tag, node ids…)` (spec section 3, `ElementRecord`). -/
structure ElementData where
  material_id : Int
  type_tag : Int
  node_ids : List Int
deriving DecidableEq, Repr

/-- Flat-integer encoding of one element record. -/
def encodeElem (e : ElementData) : List Int :=
  e.material_id :: e.type_tag :: e.node_ids

/-- Flat-integer encoding of a sequence of element records. -/
def encodeElems (es : List ElementData) : List Int :=
  (es.map encodeElem).flatten

/-- Modelled from the spec: the element decoder (spec section 4.3) — read
`material_id`, then `type_tag`, then exactly `arity(type_tag)` node ids,
`n` times; any shortfall is a truncated element stream, an unknown tag a
parse error. -/
def decodeElems (arity : Int → Option Nat) :
    Nat → List Int → Except ReadError (List ElementData × List Int)
  | 0, s => .ok ([], s)
  | _ + 1, [] => .error .TruncatedElementStream
  | _ + 1, [_] => .error .TruncatedElementStream
  | n + 1, m :: t :: rest =>
    match arity t with
    | none => .error .ParseError
    | some k =>
      if k ≤ rest.length then
        match decodeElems arity n (rest.drop k) with
        | .error e => .error e
        | .ok (es, s) => .ok (⟨m, t, rest.take k⟩ :: es, s)
      else .error .TruncatedElementStream

/-- An in-memory mesh node; the coordinate payloads of the input record,
copied verbatim. -/
structure Node where
  x : Int
  y : Int
  z : Int
deriving DecidableEq, Repr

/-- An in-memory mesh element: material id, type tag, and the referenced
local node indices (each a valid index into the partition's node vector). -/
structure MeshElement where
  material_id : Int
  type_tag : Int
  nodes : List Nat
deriving DecidableEq, Repr

/-- The partitioned-mesh value handed back to the caller (spec section 3,
"Local mesh result"): node vector, parallel global-id vector, element
vector (regular then ghost), and the header retained verbatim. -/
structure NodePartitionedMesh where
  name : String
  mesh_nodes : List Node
  glb_node_ids : List Nat
  mesh_elems : List MeshElement
  header : PartitionedMeshInfo
deriving DecidableEq, Repr

/-- Modelled from the spec: `NodePartitionedMeshReader::setNodes` (declared
in the header, body not in `src/`) — build the node vector and the parallel
global-id vector from the received records, in input order, coordinates
copied verbatim. -/
def setNodes (node_data : List NodeData) : List Node × List Nat :=
  (node_data.map fun d => ⟨d.x, d.y, d.z⟩, node_data.map fun d => d.index)

/-- Check one element's local node indices against the partition's node
count; a reference outside `[0, n)` is a dangling element reference. -/
def checkIds (n : Int) : List Int → Except ReadError (List Nat)
  | [] => .ok []
  | id :: rest =>
    if 0 ≤ id ∧ id < n then
      match checkIds n rest with
      | .error e => .error e
      | .ok ids => .ok (id.toNat :: ids)
    else .error .DanglingElementReference

/-- Modelled from the spec: `NodePartitionedMeshReader::setElements`
(declared in the header, body not in `src/`) — turn decoded element records
into mesh elements, resolving every node reference as a local index into
the node vector just built (spec section 4.6); an out-of-range index fails
with `DanglingElementReference`. -/
def setElements (n : Int) : List ElementData → Except ReadError (List MeshElement)
  | [] => .ok []
  | ed :: rest =>
    match checkIds n ed.node_ids with
    | .error e => .error e
    | .ok ids =>
      match setElements n rest with
      | .error e => .error e
      | .ok ms => .ok (⟨ed.material_id, ed.type_tag, ids⟩ :: ms)

/-- Modelled from the spec: the local assembler (spec section 4.6) — decode
the regular and ghost element buffers, resolve node references, and build
the partitioned mesh with the header retained verbatim.  Leftover integers
in a buffer are a size mismatch. -/
def assemble (arity : Int → Option Nat) (name : String)
    (hdr : PartitionedMeshInfo) (node_data : List NodeData)
    (elem_buf ghost_buf : List Int) : Except ReadError NodePartitionedMesh :=
  match decodeElems arity hdr.regular_elements.toNat elem_buf with
  | .error e => .error e
  | .ok (regs, restR) =>
    if restR = [] then
      match decodeElems arity hdr.ghost_elements.toNat ghost_buf with
      | .error e => .error e
      | .ok (ghosts, restG) =>
        if restG = [] then
          match setElements hdr.nodes (regs ++ ghosts) with
          | .error e => .error e
          | .ok elems =>
            .ok ⟨name, (setNodes node_data).1, (setNodes node_data).2, elems, hdr⟩
        else .error .SizeMismatch
    else .error .SizeMismatch

/-- Maximum value of the `int` count parameter of `MPI_File_read`
(the messaging layer's count type). -/
def intMax : Nat := 2147483647

/-- Binary configuration file name (spec section 6). -/
def binCfgName (base : String) (p : Nat) : String :=
  base ++ "_partitioned_msh_cfg" ++ toString p ++ ".bin"

/-- Binary node file name (spec section 6). -/
def binNodName (base : String) (p : Nat) : String :=
  base ++ "_partitioned_msh_nod" ++ toString p ++ ".bin"

/-- Binary regular-element file name (spec section 6). -/
def binEleName (base : String) (p : Nat) : String :=
  base ++ "_partitioned_msh_ele" ++ toString p ++ ".bin"

/-- Binary ghost-element file name (spec section 6). -/
def binEleGName (base : String) (p : Nat) : String :=
  base ++ "_partitioned_msh_ele_g" ++ toString p ++ ".bin"

/-- Text configuration file name (spec section 6). -/
def ascCfgName (base : String) (p : Nat) : String :=
  base ++ "_partitioned_cfg" ++ toString p ++ ".msh"

/-- Text node file name (spec section 6). -/
def ascNodesName (base : String) (p : Nat) : String :=
  base ++ "_partitioned_nodes" ++ toString p ++ ".msh"

/-- Text element file name (spec section 6). -/
def ascElemsName (base : String) (p : Nat) : String :=
  base ++ "_partitioned_elems" ++ toString p ++ ".msh"

/-- Modelled from the spec: the on-disk input of one `read` call.  Each map
sends a file name to the decoded content of that file (`none` = the file
does not exist / cannot be opened); streams are modelled at the record
level of the codecs above.  `nparts` is the partition count embedded in the
names of the files present on disk. -/
structure FileSystem where
  nparts : Nat
  binCfg : String → Option (List Int)
  binNod : String → Option (List NodeData)
  binEle : String → Option (List Int)
  binEleG : String → Option (List Int)
  ascCfg : String → Option (List Int)
  ascNodes : String → Option (List NodeData)
  ascElems : String → Option (List Int)

/-- Modelled from the spec: `NodePartitionedMeshReader::readBinaryDataFromFile`
(declared in the header, body not in `src/`) — one guarded random-access
read of `count` records at record offset `offset`.  A request larger than
the messaging layer's count type fails with `OversizedChunk` before the
read is issued; a missing file is `CannotOpen`; reading past the end of the
file yields the stream-specific truncation error. -/
def readBinaryDataFromFile {α : Type} (filename : String) (offset count : Nat)
    (truncErr : ReadError) (content : Option (List α)) :
    Except ReadError (List α) :=
  if intMax < count then .error .OversizedChunk
  else
    match content with
    | none => .error (.CannotOpen filename)
    | some data =>
      if offset + count ≤ data.length then .ok ((data.drop offset).take count)
      else .error truncErr

/-- Modelled from the spec: the per-rank part of the binary path
(spec section 4.4).  Given the broadcast header table, rank `r` reads its
node slice at `offset0`, its regular-element slice from `offset2` to the
next partition's `offset2` (end of file for the last partition, spec
section 9 open question (a)), and its ghost-element slice from `offset3`
symmetrically, then assembles its local mesh. -/
def readBinaryRank (arity : Int → Option Nat) (base : String) (P : Nat)
    (fs : FileSystem) (headers : List PartitionedMeshInfo) (r : Nat) :
    Except ReadError NodePartitionedMesh :=
  let hdr := headers.getD r defaultHeader
  match readBinaryDataFromFile (binNodName base P) hdr.offset0.toNat
      hdr.nodes.toNat .TruncatedNodeStream (fs.binNod (binNodName base P)) with
  | .error e => .error e
  | .ok node_data =>
    match fs.binEle (binEleName base P) with
    | none => .error (.CannotOpen (binEleName base P))
    | some eleAll =>
      let regEnd := if r + 1 < P then (headers.getD (r + 1) defaultHeader).offset2.toNat
                    else eleAll.length
      match readBinaryDataFromFile (binEleName base P) hdr.offset2.toNat
          (regEnd - hdr.offset2.toNat) .TruncatedElementStream (some eleAll) with
      | .error e => .error e
      | .ok elem_buf =>
        match fs.binEleG (binEleGName base P) with
        | none => .error (.CannotOpen (binEleGName base P))
        | some gAll =>
          let gEnd := if r + 1 < P then (headers.getD (r + 1) defaultHeader).offset3.toNat
                      else gAll.length
          match readBinaryDataFromFile (binEleGName base P) hdr.offset3.toNat
              (gEnd - hdr.offset3.toNat) .TruncatedElementStream (some gAll) with
          | .error e => .error e
          | .ok ghost_buf => assemble arity base hdr node_data elem_buf ghost_buf

/-- Modelled from the spec: `NodePartitionedMeshReader::readBinary`
(declared in the header, body not in `src/`) — read the full `P × 14`
header table once, then produce each rank's result. -/
def readBinaryAll (arity : Int → Option Nat) (base : String) (P : Nat)
    (fs : FileSystem) : List (Except ReadError NodePartitionedMesh) :=
  match readBinaryDataFromFile (binCfgName base P) 0 (P * 14) .MalformedHeader
      (fs.binCfg (binCfgName base P)) with
  | .error e => List.replicate P (.error e)
  | .ok cfgData =>
    match parseHeaders P cfgData with
    | .error e => List.replicate P (.error e)
    | .ok headers => (List.range P).map (readBinaryRank arity base P fs headers)

/-- The per-rank message sequence of the text path: header, node records,
regular-element buffer, ghost-element buffer (spec section 4.5). -/
structure Payload where
  header : PartitionedMeshInfo
  node_data : List NodeData
  elem_buf : List Int
  ghost_buf : List Int
deriving DecidableEq, Repr

/-- The payload broadcast on a rank-0 parse error: the sentinel header with
empty data phases. -/
def sentinelPayload : Payload := ⟨sentinelHeader, [], [], []⟩

/-- Modelled from the spec: rank 0 parsing one partition of the text
streams (spec section 4.5, steps 1-3): 14 header integers, `header.nodes`
node records, then the regular and ghost element records re-flattened into
the integer buffers sent to the owning rank.  `none` is a parse error. -/
def dispatchOne (arity : Int → Option Nat) (cfg : List Int)
    (nods : List NodeData) (elems : List Int) :
    Option (Payload × (List Int × List NodeData × List Int)) :=
  match parseHeader cfg with
  | none => none
  | some (hdr, cfgRest) =>
    if hdr.nodes.toNat ≤ nods.length then
      match decodeElems arity hdr.regular_elements.toNat elems with
      | .error _ => none
      | .ok (regs, elems1) =>
        match decodeElems arity hdr.ghost_elements.toNat elems1 with
        | .error _ => none
        | .ok (ghosts, elems2) =>
          some (⟨hdr, nods.take hdr.nodes.toNat, encodeElems regs, encodeElems ghosts⟩,
                (cfgRest, nods.drop hdr.nodes.toNat, elems2))
    else none

/-- Rank 0 parsing all `P` partitions in order; `none` is a parse error at
some partition. -/
def dispatchList (arity : Int → Option Nat) :
    Nat → List Int → List NodeData → List Int → Option (List Payload)
  | 0, _, _, _ => some []
  | p + 1, cfg, nods, elems =>
    match dispatchOne arity cfg nods elems with
    | none => none
    | some (pay, (cfg1, nods1, elems1)) =>
      match dispatchList arity p cfg1 nods1 elems1 with
      | none => none
      | some ps => some (pay :: ps)

/-- Modelled from the spec: the rank-0 dispatcher (spec section 4.5).  On
success every rank receives its own payload; any parse error is converted
into a broadcast of the sentinel payload to every rank. -/
def dispatchASCII (arity : Int → Option Nat) (P : Nat) (cfg : List Int)
    (nods : List NodeData) (elems : List Int) : List Payload :=
  match dispatchList arity P cfg nods elems with
  | some ps => ps
  | none => List.replicate P sentinelPayload

/-- Modelled from the spec: the receiving rank of the text path — a
sentinel header (`nodes = -1`) is treated as `ParseError`; otherwise the
payload is assembled into the local mesh. -/
def recvASCII (arity : Int → Option Nat) (name : String) (pay : Payload) :
    Except ReadError NodePartitionedMesh :=
  if pay.header.nodes < 0 then .error .ParseError
  else assemble arity name pay.header pay.node_data pay.elem_buf pay.ghost_buf

/-- First error of the per-rank results, if any. -/
def firstError {α : Type} : List (Except ReadError α) → Option ReadError
  | [] => none
  | .error e :: _ => some e
  | .ok _ :: rest => firstError rest

/-- Modelled from the spec: the collective error-propagation policy
(spec section 7) — an error on any rank is reflected on all ranks before
return, so the caller sees a consistent null on every rank and no partial
mesh; on success every rank keeps its own mesh.  The second component is
the out-of-band diagnostic. -/
def collectivize (P : Nat) (rs : List (Except ReadError NodePartitionedMesh)) :
    List (Option NodePartitionedMesh) × Option ReadError :=
  match firstError rs with
  | some e => (List.replicate P none, some e)
  | none => (rs.map Except.toOption, none)

/-- Modelled from the spec: `NodePartitionedMeshReader::readASCII`
(declared in the header, body not in `src/`) — open the three text files
(a missing file is a collective `CannotOpen`), dispatch from rank 0,
receive on every rank, and apply the collective error policy. -/
def readASCIIAll (arity : Int → Option Nat) (base : String) (P : Nat)
    (fs : FileSystem) : List (Option NodePartitionedMesh) × Option ReadError :=
  match fs.ascCfg (ascCfgName base P) with
  | none => (List.replicate P none, some (.CannotOpen (ascCfgName base P)))
  | some cfg =>
    match fs.ascNodes (ascNodesName base P) with
    | none => (List.replicate P none, some (.CannotOpen (ascNodesName base P)))
    | some nods =>
      match fs.ascElems (ascElemsName base P) with
      | none => (List.replicate P none, some (.CannotOpen (ascElemsName base P)))
      | some elems =>
        collectivize P ((dispatchASCII arity P cfg nods elems).map (recvASCII arity base))

/-- Modelled from the spec: `NodePartitionedMeshReader::read` (declared in
the header, body not in `src/`) with its out-of-band diagnostic.  A
communicator size disagreeing with the partition count embedded in the
on-disk file names fails with `PartitionCountMismatch` before any file is
touched; otherwise the binary encoding is probed first via the binary
configuration file name and the text path is the fallback
(spec section 4.7). -/
def readFull (arity : Int → Option Nat) (base : String) (commSize : Nat)
    (fs : FileSystem) : List (Option NodePartitionedMesh) × Option ReadError :=
  if commSize ≠ fs.nparts then
    (List.replicate commSize none, some .PartitionCountMismatch)
  else if (fs.binCfg (binCfgName base commSize)).isSome then
    collectivize commSize (readBinaryAll arity base commSize fs)
  else
    readASCIIAll arity base commSize fs

/-- The caller-visible result of the collective `read`: one
`NodePartitionedMesh` pointer (null = `none`) per rank. -/
def read (arity : Int → Option Nat) (base : String) (commSize : Nat)
    (fs : FileSystem) : List (Option NodePartitionedMesh) :=
  (readFull arity base commSize fs).1

/-- One partition of a logical mesh partitioning: its header, node records
and decoded regular and ghost element records.  Both on-disk encodings of
spec section 6 are generated from this (the shared logical schema). -/
structure PartData where
  hdr : PartitionedMeshInfo
  node_data : List NodeData
  regs : List ElementData
  ghosts : List ElementData
deriving DecidableEq, Repr

/-- Binary configuration stream: the `P × 14` header table (spec section 6). -/
def encodeBinCfg (parts : List PartData) : List Int :=
  (parts.map fun pd => longsOfHeader pd.hdr).flatten

/-- Node stream: all partitions' node records back-to-back (spec section 6). -/
def encodeNod (parts : List PartData) : List NodeData :=
  (parts.map fun pd => pd.node_data).flatten

/-- Binary regular-element stream: flat integers, partition slices
delimited by `offset2` (spec section 6). -/
def encodeEle (parts : List PartData) : List Int :=
  (parts.map fun pd => encodeElems pd.regs).flatten

/-- Binary ghost-element stream, delimited by `offset3` (spec section 6). -/
def encodeEleG (parts : List PartData) : List Int :=
  (parts.map fun pd => encodeElems pd.ghosts).flatten

/-- Text element stream: per partition the regular then the ghost element
records, all partitions in order (spec section 4.5). -/
def encodeAscElems (parts : List PartData) : List Int :=
  (parts.map fun pd => encodeElems pd.regs ++ encodeElems pd.ghosts).flatten

/-- The binary on-disk image of a logical partitioning: exactly the four
binary files, under their spec section 6 names. -/
def binFS (base : String) (parts : List PartData) : FileSystem :=
  ⟨parts.length,
   fun s => if s = binCfgName base parts.length then some (encodeBinCfg parts) else none,
   fun s => if s = binNodName base parts.length then some (encodeNod parts) else none,
   fun s => if s = binEleName base parts.length then some (encodeEle parts) else none,
   fun s => if s = binEleGName base parts.length then some (encodeEleG parts) else none,
   fun _ => none, fun _ => none, fun _ => none⟩

/-- The text on-disk image of the same logical partitioning: exactly the
three text files, under their spec section 6 names. -/
def ascFS (base : String) (parts : List PartData) : FileSystem :=
  ⟨parts.length,
   fun _ => none, fun _ => none, fun _ => none, fun _ => none,
   fun s => if s = ascCfgName base parts.length then some (encodeBinCfg parts) else none,
   fun s => if s = ascNodesName base parts.length then some (encodeNod parts) else none,
   fun s => if s = ascElemsName base parts.length then some (encodeAscElems parts) else none⟩

/-- The element record carries exactly `arity(type_tag)` node ids. -/
def arityOkB (arity : Int → Option Nat) (e : ElementData) : Bool :=
  arity e.type_tag == some e.node_ids.length

/-- The header counts of one partition agree with its record vectors, and
each stream slice fits the messaging layer's count type. -/
def partCountsOk (pd : PartData) : Bool :=
  pd.hdr.nodes == (pd.node_data.length : Int) &&
  pd.hdr.regular_elements == (pd.regs.length : Int) &&
  pd.hdr.ghost_elements == (pd.ghosts.length : Int) &&
  decide (pd.node_data.length ≤ intMax) &&
  decide ((encodeElems pd.regs).length ≤ intMax) &&
  decide ((encodeElems pd.ghosts).length ≤ intMax)

/-- The stored offsets are the prefix sums of the stream slice lengths,
starting from the given accumulated positions. -/
def offsetsOk : Nat → Nat → Nat → List PartData → Bool
  | _, _, _, [] => true
  | a, b, c, pd :: rest =>
    (pd.hdr.offset0 == (a : Int)) && (pd.hdr.offset2 == (b : Int)) &&
    (pd.hdr.offset3 == (c : Int)) &&
    offsetsOk (a + pd.node_data.length) (b + (encodeElems pd.regs).length)
      (c + (encodeElems pd.ghosts).length) rest

/-- A well-formed logical partitioning: counts agree with the data, every
element record is arity-consistent, slices fit the count type, the header
table fits the count type, and the offsets index the streams correctly. -/
def inputValid (arity : Int → Option Nat) (parts : List PartData) : Bool :=
  parts.all (fun pd => partCountsOk pd && (pd.regs ++ pd.ghosts).all (arityOkB arity)) &&
  decide (parts.length * 14 ≤ intMax) &&
  offsetsOk 0 0 0 parts

/-- The per-header invariants of spec section 3. -/
def headerOk (h : PartitionedMeshInfo) : Bool :=
  decide (h.active_nodes ≤ h.nodes) &&
  decide (h.active_base_nodes ≤ h.base_nodes) &&
  decide (h.base_nodes ≤ h.nodes) &&
  decide (1 ≤ h.regular_elements + h.ghost_elements)

/-- Offsets monotone non-decreasing across partitions within one stream
(spec section 3). -/
def offsetsMonotone : List PartitionedMeshInfo → Bool
  | [] => true
  | [_] => true
  | h1 :: h2 :: rest =>
    decide (h1.offset0 ≤ h2.offset0) && decide (h1.offset1 ≤ h2.offset1) &&
    decide (h1.offset2 ≤ h2.offset2) && decide (h1.offset3 ≤ h2.offset3) &&
    decide (h1.offset4 ≤ h2.offset4) && offsetsMonotone (h2 :: rest)

/-- All invariants of spec sections 3 and 8 over a header table: per-header
invariants, offset monotonicity, and `Σ_p active_nodes = global_nodes` for
every partition. -/
def headersInvariant (hs : List PartitionedMeshInfo) : Bool :=
  hs.all headerOk && offsetsMonotone hs &&
  hs.all (fun h => h.global_nodes == (hs.map fun g => g.active_nodes).sum)

end OgsSpec

namespace MeshEditing

open OgsSpec (Node)

/-- Element shapes distinguished by `MeshElemType` (header `MeshEnums.h`,
not in `src/`); only equality of tags matters to the extraction class. -/
inductive MeshElemType where
  | LINE
  | TRIANGLE
  | QUADRILATERAL
  | TETRAHEDRON
  | HEXAHEDRON
  | PYRAMID
  | PRISM
deriving DecidableEq, Repr

/-- Modelled from the spec: a mesh element as seen by `ElementExtraction`
(class `MeshLib::Element`, not in `src/`): its type, material id, content
(volume proxy, an integer scale where nonpositive models a volume below
`epsilon`), and its nodes' coordinates. -/
structure EEElement where
  eleType : MeshElemType
  matID : Nat
  content : Int
  nodes : List Node
deriving DecidableEq, Repr

/-- Modelled from the spec: the mesh as seen by `ElementExtraction`
(class `MeshLib::Mesh`, not in `src/`): a name, nodes and elements. -/
structure Mesh where
  name : String
  nodes : List Node
  elements : List EEElement
deriving DecidableEq, Repr

/-- Modelled from the spec: the state of an `ElementExtraction` instance
(header `ElementExtraction.h`): the source mesh held by const reference,
the vector of marked element indices, and the error code. -/
structure ElementExtraction where
  mesh : Mesh
  marked_elements : List Nat
  error_code : Nat
deriving DecidableEq, Repr

/-- The constructor: no elements marked, no error. -/
def ElementExtraction.init (m : Mesh) : ElementExtraction := ⟨m, [], 0⟩

/-- Modelled from the spec: `ElementExtraction::updateUnion` (declared in
the header, body not in `src/`) — "Updates the vector of marked elements
with values from vec": the marked vector becomes the union of the old
marks and the new matches. -/
def updateUnion (marked : List Nat) (vec : List Nat) : List Nat :=
  marked ++ vec.filter fun x => !(decide (x ∈ marked))

/-- Indices of the elements of `m` satisfying `p`. -/
def matchingIndices (m : Mesh) (p : EEElement → Bool) : List Nat :=
  (m.elements.enum.filter fun x => p x.2).map fun x => x.1

/-- Modelled from the spec: `ElementExtraction::searchByMaterialID`
(declared in the header, body not in `src/`) — "Marks all elements with the
given Material ID", merged into the marked set via `updateUnion`. -/
def searchByMaterialID (s : ElementExtraction) (matID : Nat) : ElementExtraction :=
  ⟨s.mesh,
   updateUnion s.marked_elements (matchingIndices s.mesh fun e => e.matID == matID),
   s.error_code⟩

/-- Modelled from the spec: `ElementExtraction::searchByElementType` —
"Marks all elements of the given element type". -/
def searchByElementType (s : ElementExtraction) (t : MeshElemType) : ElementExtraction :=
  ⟨s.mesh,
   updateUnion s.marked_elements (matchingIndices s.mesh fun e => decide (e.eleType = t)),
   s.error_code⟩

/-- Modelled from the spec: `ElementExtraction::searchByZeroContent` —
"Marks all elements with a volume smaller than epsilon", the volume proxy
being nonpositive in this model. -/
def searchByZeroContent (s : ElementExtraction) : ElementExtraction :=
  ⟨s.mesh,
   updateUnion s.marked_elements (matchingIndices s.mesh fun e => decide (e.content ≤ 0)),
   s.error_code⟩

/-- A node lies outside the axis-aligned box spanned by `x1` and `x2`. -/
def outsideBox (x1 x2 n : Node) : Bool :=
  decide (n.x < min x1.x x2.x) || decide (max x1.x x2.x < n.x) ||
  decide (n.y < min x1.y x2.y) || decide (max x1.y x2.y < n.y) ||
  decide (n.z < min x1.z x2.z) || decide (max x1.z x2.z < n.z)

/-- Modelled from the spec: `ElementExtraction::searchByBoundingBox` —
"Marks all elements with at least one node outside the bounding box
spanned by x1 and x2". -/
def searchByBoundingBox (s : ElementExtraction) (x1 x2 : Node) : ElementExtraction :=
  ⟨s.mesh,
   updateUnion s.marked_elements
     (matchingIndices s.mesh fun e => e.nodes.any (outsideBox x1 x2)),
   s.error_code⟩

/-- Modelled from the spec: `ElementExtraction::excludeElements` (declared
in the header, body not in `src/`) — "Removes elements from vec_removed in
vec_src_elems". -/
def excludeElements (src_elems : List EEElement) (removed : List Nat) : List EEElement :=
  (src_elems.enum.filter fun x => !(decide (x.1 ∈ removed))).map fun x => x.2

/-- Modelled from the spec: `ElementExtraction::copyNodesElements`
(declared in the header, body not in `src/`) — "Copies nodes and elements
of the original mesh for constructing the new mesh"; a copy is a fresh
value equal to its source. -/
def copyNodesElements (src_nodes : List Node) (src_elems : List EEElement) :
    List Node × List EEElement :=
  (src_nodes.map fun n => ⟨n.x, n.y, n.z⟩, src_elems.map fun e => ⟨e.eleType, e.matID, e.content, e.nodes⟩)

/-- Modelled from the spec: `ElementExtraction::removeMeshElements`
(declared in the header, body not in `src/`) — "Removes all mesh elements
marked by search-methods", returning a newly constructed mesh of copies of
the surviving nodes and elements (null plus a nonzero error code when
nothing is marked or nothing survives); the source mesh is untouched. -/
def removeMeshElements (s : ElementExtraction) (new_mesh_name : String) :
    Option Mesh × ElementExtraction :=
  if s.marked_elements.isEmpty then (none, ⟨s.mesh, s.marked_elements, 2⟩)
  else
    let survivors := excludeElements s.mesh.elements s.marked_elements
    if survivors.isEmpty then (none, ⟨s.mesh, s.marked_elements, 1⟩)
    else
      let copied := copyNodesElements s.mesh.nodes survivors
      (some ⟨new_mesh_name, copied.1, copied.2⟩, ⟨s.mesh, s.marked_elements, 0⟩)

/-- The four search operations, for reasoning about arbitrary call
sequences. -/
inductive SearchOp where
  | byMaterial (matID : Nat)
  | byType (t : MeshElemType)
  | byZeroContent
  | byBoundingBox (x1 x2 : Node)
deriving DecidableEq, Repr

/-- Apply one search operation to the extraction state. -/
def applySearch (s : ElementExtraction) : SearchOp → ElementExtraction
  | .byMaterial matID => searchByMaterialID s matID
  | .byType t => searchByElementType s t
  | .byZeroContent => searchByZeroContent s
  | .byBoundingBox x1 x2 => searchByBoundingBox s x1 x2

/-- The match list one search operation computes against a mesh. -/
def opMatches (m : Mesh) : SearchOp → List Nat
  | .byMaterial matID => matchingIndices m fun e => e.matID == matID
  | .byType t => matchingIndices m fun e => decide (e.eleType = t)
  | .byZeroContent => matchingIndices m fun e => decide (e.content ≤ 0)
  | .byBoundingBox x1 x2 => matchingIndices m fun e => e.nodes.any (outsideBox x1 x2)

end MeshEditing

namespace OgsSpec

/-- Arity table used for the concrete example inputs: type tag 3 is the
triangle (three nodes). -/
def wArity : Int → Option Nat := fun t => if t = 3 then some 3 else none

/-- Scenario A of spec section 8: partition 0 of the two-triangle square. -/
def wPart0 : PartData :=
  ⟨⟨3, 3, 1, 0, 2, 2, 4, 4, 0, 0, 0, 0, 0, -1⟩,
   [⟨0, 0, 0, 0⟩, ⟨1, 10, 0, 0⟩, ⟨2, 10, 10, 0⟩],
   [⟨7, 3, [0, 1, 2]⟩], []⟩

/-- Scenario A of spec section 8: partition 1 of the two-triangle square. -/
def wPart1 : PartData :=
  ⟨⟨3, 3, 1, 0, 2, 2, 4, 4, 3, 0, 5, 0, 0, -1⟩,
   [⟨2, 10, 10, 0⟩, ⟨3, 0, 10, 0⟩, ⟨0, 0, 0, 0⟩],
   [⟨7, 3, [0, 1, 2]⟩], []⟩

/-- The two-partition Scenario A input. -/
def wParts : List PartData := [wPart0, wPart1]

/-- A single-partition input: one node, no elements. -/
def wPartsOne : List PartData :=
  [⟨⟨1, 1, 0, 0, 1, 1, 1, 1, 0, 0, 0, 0, 0, 0⟩, [⟨0, 4, 5, 6⟩], [], []⟩]

/-- A single-partition input whose header violates the spec section 3
invariants (`active_nodes = 5 > nodes = 1`,
`regular_elements + ghost_elements = 0`). -/
def cexParts : List PartData :=
  [⟨⟨1, 0, 0, 0, 0, 5, 0, 0, 0, 0, 0, 0, 0, 0⟩, [⟨0, 0, 0, 0⟩], [], []⟩]

/-- A text input whose configuration stream is cut short (a parse error on
rank 0 after the first three integers). -/
def wBadAscFS : FileSystem :=
  ⟨2, fun _ => none, fun _ => none, fun _ => none, fun _ => none,
   fun s => if s = ascCfgName "m" 2 then some [1, 2, 3] else none,
   fun s => if s = ascNodesName "m" 2 then some [] else none,
   fun s => if s = ascElemsName "m" 2 then some [] else none⟩

/-- The node-record block of each partition. -/
def nodeBlocks (parts : List PartData) : List (List NodeData) :=
  parts.map fun pd => pd.node_data

/-- The encoded regular-element block of each partition. -/
def regBlocks (parts : List PartData) : List (List Int) :=
  parts.map fun pd => encodeElems pd.regs

/-- The encoded ghost-element block of each partition. -/
def ghostBlocks (parts : List PartData) : List (List Int) :=
  parts.map fun pd => encodeElems pd.ghosts

/-- Record offset of block `r` in the concatenation of the blocks. -/
def blockOffset {α : Type} (bs : List (List α)) (r : Nat) : Nat :=
  ((bs.take r).map List.length).sum

/-- The payload partition `r`'s rank obtains on either path: its header,
its node records, and its encoded element buffers. -/
def canonicalPayload (pd : PartData) : Payload :=
  ⟨pd.hdr, pd.node_data, encodeElems pd.regs, encodeElems pd.ghosts⟩

/-- The local assembly of one partition's canonical payload. -/
def assembleOf (arity : Int → Option Nat) (base : String) (pd : PartData) :
    Except ReadError NodePartitionedMesh :=
  assemble arity base pd.hdr pd.node_data (encodeElems pd.regs) (encodeElems pd.ghosts)

/-- The mesh `read` produces for the single-partition input `wPartsOne`. -/
def wMeshOne : NodePartitionedMesh :=
  ⟨"w", [⟨4, 5, 6⟩], [0], [], ⟨1, 1, 0, 0, 1, 1, 1, 1, 0, 0, 0, 0, 0, 0⟩⟩

/-- The mesh `read` produces on rank 0 for the Scenario A input `wParts`. -/
def wMeshA : NodePartitionedMesh :=
  ⟨"m", [⟨0, 0, 0⟩, ⟨10, 0, 0⟩, ⟨10, 10, 0⟩], [0, 1, 2],
   [⟨7, 3, [0, 1, 2]⟩], ⟨3, 3, 1, 0, 2, 2, 4, 4, 0, 0, 0, 0, 0, -1⟩⟩

end OgsSpec

namespace MeshEditing

/-- A concrete node for the extraction examples. -/
def wNode : OgsSpec.Node := ⟨0, 0, 0⟩

/-- A concrete triangle element with material id 7. -/
def wElem : EEElement := ⟨.TRIANGLE, 7, 1, [wNode]⟩

/-- A concrete line element with material id 9. -/
def wElemB : EEElement := ⟨.LINE, 9, 1, [wNode]⟩

/-- A concrete two-element mesh for the extraction examples. -/
def wMesh : Mesh := ⟨"m", [wNode], [wElem, wElemB]⟩

/-- The new mesh `removeMeshElements` builds from `wMesh` after marking
element 0. -/
def wMeshOut : Mesh := ⟨"x", [wNode], [wElemB]⟩

end MeshEditing

namespace OgsSpec

theorem firstError_none {α : Type} :
    ∀ (rs : List (Except ReadError α)), firstError rs = none →
      ∀ er ∈ rs, ∃ a, er = .ok a := by
  intro rs
  induction rs with
  | nil => intro _ er her; cases her
  | cons head tail ih =>
    cases head with
    | error e => intro h; exact absurd h (by simp [firstError])
    | ok a =>
      intro h er her
      rcases List.mem_cons.mp her with rfl | htail
      · exact ⟨a, rfl⟩
      · exact ih (by simpa [firstError] using h) er htail

theorem collectivize_all_or_none (P : Nat) (rs : List (Except ReadError NodePartitionedMesh)) :
    (∀ o ∈ (collectivize P rs).1, o.isSome = true) ∨
      (collectivize P rs).1 = List.replicate P none := by
  unfold collectivize
  cases hfe : firstError rs with
  | some e => right; rfl
  | none =>
    left
    intro o ho
    simp only at ho
    rcases List.mem_map.mp ho with ⟨er, her, rfl⟩
    rcases firstError_none rs hfe er her with ⟨a, rfl⟩
    rfl

theorem collectivize_diag_null (P : Nat) (rs : List (Except ReadError NodePartitionedMesh))
    (h : (collectivize P rs).2.isSome = true) :
    (collectivize P rs).1 = List.replicate P none := by
  unfold collectivize at h ⊢
  cases hfe : firstError rs <;> simp [hfe] at h ⊢

theorem readASCIIAll_all_or_none (arity : Int → Option Nat) (base : String)
    (P : Nat) (fs : FileSystem) :
    (∀ o ∈ (readASCIIAll arity base P fs).1, o.isSome = true) ∨
      (readASCIIAll arity base P fs).1 = List.replicate P none := by
  unfold readASCIIAll
  split
  · right; rfl
  · split
    · right; rfl
    · split
      · right; rfl
      · exact collectivize_all_or_none ..

theorem readASCIIAll_diag_null (arity : Int → Option Nat) (base : String)
    (P : Nat) (fs : FileSystem)
    (h : (readASCIIAll arity base P fs).2.isSome = true) :
    (readASCIIAll arity base P fs).1 = List.replicate P none := by
  revert h
  unfold readASCIIAll
  split
  · intro _; rfl
  · split
    · intro _; rfl
    · split
      · intro _; rfl
      · exact fun h => collectivize_diag_null _ _ h

theorem readFull_diag_null (arity : Int → Option Nat) (base : String)
    (commSize : Nat) (fs : FileSystem)
    (h : (readFull arity base commSize fs).2.isSome = true) :
    (readFull arity base commSize fs).1 = List.replicate commSize none := by
  revert h
  unfold readFull
  split_ifs
  · intro _; rfl
  · exact fun h => collectivize_diag_null _ _ h
  · exact fun h => readASCIIAll_diag_null _ _ _ _ h

theorem read_all_or_none (arity : Int → Option Nat) (base : String)
    (commSize : Nat) (fs : FileSystem) :
    (∀ o ∈ read arity base commSize fs, o.isSome = true) ∨
      read arity base commSize fs = List.replicate commSize none := by
  unfold read readFull
  split_ifs
  · right; rfl
  · exact collectivize_all_or_none ..
  · exact readASCIIAll_all_or_none ..

/-- C1: on every input the collective `read` returns, on each rank, either
a fully constructed mesh on every rank or null on every rank (total
functions: no exception crosses the collective boundary); a parse error on
rank 0 is converted into a broadcast of the sentinel payload
(`nodes = -1`) to every rank, and a receiver treats the sentinel as
`ParseError`. -/
theorem read_collective_null_or_mesh (arity : Int → Option Nat) (base : String)
    (commSize : Nat) (fs : FileSystem) (cfg : List Int) (nods : List NodeData)
    (elems : List Int) :
    ((∀ o ∈ read arity base commSize fs, o.isSome = true) ∨
      read arity base commSize fs = List.replicate commSize none) ∧
    (dispatchList arity commSize cfg nods elems = none →
      dispatchASCII arity commSize cfg nods elems =
        List.replicate commSize sentinelPayload) ∧
    recvASCII arity base sentinelPayload = .error .ParseError := by
  refine ⟨read_all_or_none arity base commSize fs, ?_, rfl⟩
  intro h
  unfold dispatchASCII
  rw [h]

/-- C1 witness: a truncated text configuration stream is a rank-0 parse
error; the dispatcher broadcasts the sentinel payload to both ranks. -/
theorem read_collective_null_or_mesh_witness :
    dispatchList wArity 2 [1, 2, 3] [] [] = none ∧
    dispatchASCII wArity 2 [1, 2, 3] [] [] = List.replicate 2 sentinelPayload :=
  ⟨by decide,
   (read_collective_null_or_mesh wArity "m" 2 wBadAscFS [1, 2, 3] [] []).2.1 (by decide)⟩

/-- C4: a `readBinaryDataFromFile` request whose element count exceeds the
maximum of the messaging layer's `int` count type fails with
`OversizedChunk` before the read is issued — uniformly in the file
content, so no data is read into the container. -/
theorem readBinaryDataFromFile_oversized {α : Type} (filename : String)
    (offset count : Nat) (truncErr : ReadError) (content : Option (List α))
    (h : intMax < count) :
    readBinaryDataFromFile filename offset count truncErr content =
      .error .OversizedChunk := by
  unfold readBinaryDataFromFile
  rw [if_pos h]

/-- C4 witness: a request of `intMax + 1` records fails with
`OversizedChunk` even though the file exists. -/
theorem readBinaryDataFromFile_oversized_witness :
    intMax < intMax + 1 ∧
    readBinaryDataFromFile "f" 0 (intMax + 1) .TruncatedNodeStream
        (some ([42] : List Int)) = .error .OversizedChunk :=
  ⟨Nat.lt_succ_self intMax,
   readBinaryDataFromFile_oversized "f" 0 (intMax + 1) .TruncatedNodeStream
     (some ([42] : List Int)) (Nat.lt_succ_self intMax)⟩

/-- C8: a communicator size disagreeing with the partition count embedded
in the on-disk file names fails with `PartitionCountMismatch`, null on
every rank; the result is a constant independent of every file map, so no
file I/O is performed. -/
theorem read_partition_count_mismatch (arity : Int → Option Nat) (base : String)
    (commSize : Nat) (fs : FileSystem) (h : commSize ≠ fs.nparts) :
    readFull arity base commSize fs =
      (List.replicate commSize none, some .PartitionCountMismatch) := by
  unfold readFull
  rw [if_pos h]

/-- C8 witness: a communicator of size 3 over a 2-partition input. -/
theorem read_partition_count_mismatch_witness :
    (3 : Nat) ≠ (binFS "m" wParts).nparts ∧
    readFull wArity "m" 3 (binFS "m" wParts) =
      (List.replicate 3 none, some .PartitionCountMismatch) :=
  ⟨by decide,
   read_partition_count_mismatch wArity "m" 3 (binFS "m" wParts) (by decide)⟩

end OgsSpec

namespace MeshEditing

theorem mem_updateUnion (a b : List Nat) (x : Nat) :
    x ∈ updateUnion a b ↔ x ∈ a ∨ x ∈ b := by
  simp only [updateUnion, List.mem_append, List.mem_filter, Bool.not_eq_eq_eq_not,
    Bool.not_true, decide_eq_false_iff_not]
  tauto

theorem applySearch_mesh (s : ElementExtraction) (op : SearchOp) :
    (applySearch s op).mesh = s.mesh := by
  cases op <;> rfl

theorem applySearch_marked (s : ElementExtraction) (op : SearchOp) :
    (applySearch s op).marked_elements =
      updateUnion s.marked_elements (opMatches s.mesh op) := by
  cases op <;> rfl

theorem copyNodesElements_eq (ns : List OgsSpec.Node) (es : List EEElement) :
    copyNodesElements ns es = (ns, es) := by
  unfold copyNodesElements
  refine Prod.ext ?_ ?_ <;> simp only
  · exact List.map_id'' (fun n => rfl) ns
  · exact List.map_id'' (fun e => rfl) es

theorem mem_foldl_applySearch (ops : List SearchOp) :
    ∀ (s : ElementExtraction) (x : Nat),
      x ∈ (ops.foldl applySearch s).marked_elements ↔
        x ∈ s.marked_elements ∨ ∃ op ∈ ops, x ∈ opMatches s.mesh op := by
  induction ops with
  | nil => intro s x; simp
  | cons op ops ih =>
    intro s x
    simp only [List.foldl_cons]
    rw [ih, applySearch_marked, mem_updateUnion, applySearch_mesh,
      List.exists_mem_cons_iff]
    tauto

/-- C9: every public operation of `ElementExtraction` leaves the source
mesh unchanged — the class holds the mesh only by const reference — and
`removeMeshElements` returns a newly constructed mesh built from copies of
the surviving nodes and elements. -/
theorem elementExtraction_source_mesh_unchanged (s : ElementExtraction)
    (matID : Nat) (t : MeshElemType) (x1 x2 : OgsSpec.Node) (nm : String) :
    (searchByMaterialID s matID).mesh = s.mesh ∧
    (searchByElementType s t).mesh = s.mesh ∧
    (searchByZeroContent s).mesh = s.mesh ∧
    (searchByBoundingBox s x1 x2).mesh = s.mesh ∧
    (removeMeshElements s nm).2.mesh = s.mesh ∧
    ∀ m, (removeMeshElements s nm).1 = some m →
      m.name = nm ∧ m.nodes = s.mesh.nodes ∧
      m.elements = excludeElements s.mesh.elements s.marked_elements := by
  refine ⟨rfl, rfl, rfl, rfl, ?_, ?_⟩ <;>
    · unfold removeMeshElements
      by_cases h1 : s.marked_elements.isEmpty <;>
        by_cases h2 : (excludeElements s.mesh.elements s.marked_elements).isEmpty <;>
          simp [h1, h2, copyNodesElements_eq]

/-- C9 witness: the operations applied to a concrete two-element mesh. -/
theorem elementExtraction_source_mesh_unchanged_witness :
    (removeMeshElements ⟨wMesh, [0], 0⟩ "x").2.mesh = wMesh ∧
    (wMeshOut.name = "x" ∧ wMeshOut.nodes = wMesh.nodes ∧
      wMeshOut.elements = excludeElements wMesh.elements [0]) :=
  ⟨(elementExtraction_source_mesh_unchanged ⟨wMesh, [0], 0⟩ 7 .TRIANGLE wNode wNode "x").2.2.2.2.1,
   (elementExtraction_source_mesh_unchanged ⟨wMesh, [0], 0⟩ 7 .TRIANGLE wNode wNode "x").2.2.2.2.2
     wMeshOut (by decide)⟩

/-- C10: the marked set grows monotonically — each search merges its
matches via `updateUnion`, after any call sequence the marked set is the
union of the matches of every call, and no call unmarks an element. -/
theorem elementExtraction_marked_monotone_union (m : Mesh) (ops : List SearchOp)
    (x : Nat) (s : ElementExtraction) (op : SearchOp) :
    (x ∈ (ops.foldl applySearch (ElementExtraction.init m)).marked_elements ↔
      ∃ o ∈ ops, x ∈ opMatches m o) ∧
    (applySearch s op).marked_elements =
      updateUnion s.marked_elements (opMatches s.mesh op) ∧
    (x ∈ s.marked_elements → x ∈ (applySearch s op).marked_elements) := by
  refine ⟨?_, applySearch_marked s op, ?_⟩
  · rw [mem_foldl_applySearch]
    simp [ElementExtraction.init]
  · intro hx
    rw [applySearch_marked, mem_updateUnion]
    exact Or.inl hx

/-- C10 witness: after a material-id search on a concrete mesh, the
matching element is marked. -/
theorem elementExtraction_marked_monotone_union_witness :
    0 ∈ (([SearchOp.byMaterial 7].foldl applySearch
      (ElementExtraction.init wMesh)).marked_elements) :=
  (elementExtraction_marked_monotone_union wMesh [SearchOp.byMaterial 7] 0
      (ElementExtraction.init wMesh) SearchOp.byZeroContent).1.mpr
    ⟨SearchOp.byMaterial 7, by decide, by decide⟩

end MeshEditing


namespace OgsSpec

theorem encodeElems_cons (e : ElementData) (es : List ElementData) :
    encodeElems (e :: es) = encodeElem e ++ encodeElems es := by
  simp [encodeElems]

theorem decodeElems_encode (arity : Int → Option Nat) :
    ∀ (es : List ElementData) (rest : List Int),
      (∀ e ∈ es, arityOkB arity e = true) →
      decodeElems arity es.length (encodeElems es ++ rest) = .ok (es, rest) := by
  intro es
  induction es with
  | nil => intro rest _; rfl
  | cons e es ih =>
    intro rest h
    have harity : arity e.type_tag = some e.node_ids.length := by
      have he := h e (List.mem_cons_self e es)
      simpa [arityOkB] using he
    have hrest : ∀ x ∈ es, arityOkB arity x = true :=
      fun x hx => h x (List.mem_cons_of_mem e hx)
    show decodeElems arity (es.length + 1) (encodeElems (e :: es) ++ rest) =
      .ok (e :: es, rest)
    rw [encodeElems_cons]
    have hshape : encodeElem e ++ encodeElems es ++ rest =
        e.material_id :: e.type_tag :: (e.node_ids ++ (encodeElems es ++ rest)) := by
      simp [encodeElem]
    rw [hshape]
    simp only [decodeElems, harity]
    rw [if_pos (by simp)]
    rw [List.take_left, List.drop_left, ih rest hrest]

theorem parseHeader_encode (h : PartitionedMeshInfo) (rest : List Int) :
    parseHeader (longsOfHeader h ++ rest) = some (h, rest) := rfl

theorem encodeBinCfg_cons (pd : PartData) (parts : List PartData) :
    encodeBinCfg (pd :: parts) = longsOfHeader pd.hdr ++ encodeBinCfg parts := by
  simp [encodeBinCfg]

theorem length_encodeBinCfg (parts : List PartData) :
    (encodeBinCfg parts).length = parts.length * 14 := by
  induction parts with
  | nil => rfl
  | cons pd parts ih =>
    rw [encodeBinCfg_cons, List.length_append, ih]
    simp [longsOfHeader]
    omega

theorem parseHeaders_encode (parts : List PartData) :
    parseHeaders parts.length (encodeBinCfg parts) = .ok (parts.map fun pd => pd.hdr) := by
  induction parts with
  | nil => rfl
  | cons pd parts ih =>
    show parseHeaders (parts.length + 1) (encodeBinCfg (pd :: parts)) = _
    rw [encodeBinCfg_cons]
    simp only [parseHeaders, parseHeader_encode, ih, List.map_cons]

theorem blockOffset_zero {α : Type} (bs : List (List α)) : blockOffset bs 0 = 0 := by
  simp [blockOffset]

theorem blockOffset_cons_succ {α : Type} (x : List α) (bs : List (List α)) (r : Nat) :
    blockOffset (x :: bs) (r + 1) = x.length + blockOffset bs r := by
  simp [blockOffset]

theorem flatten_drop_take {α : Type} :
    ∀ (bs : List (List α)) (r : Nat) (hr : r < bs.length),
      (bs.flatten.drop (blockOffset bs r)).take bs[r].length = bs[r] := by
  intro bs
  induction bs with
  | nil => intro r hr; cases hr
  | cons x bs ih =>
    intro r hr
    cases r with
    | zero =>
      simp only [blockOffset_zero, List.drop_zero, List.flatten_cons,
        List.getElem_cons_zero]
      exact List.take_left x bs.flatten
    | succ r =>
      simp only [blockOffset_cons_succ, List.flatten_cons, List.getElem_cons_succ]
      rw [List.drop_append]
      exact ih r (Nat.lt_of_succ_lt_succ hr)

theorem flatten_len_bound {α : Type} :
    ∀ (bs : List (List α)) (r : Nat) (hr : r < bs.length),
      blockOffset bs r + bs[r].length ≤ bs.flatten.length := by
  intro bs
  induction bs with
  | nil => intro r hr; cases hr
  | cons x bs ih =>
    intro r hr
    cases r with
    | zero =>
      simp only [blockOffset_zero, List.flatten_cons, List.getElem_cons_zero,
        List.length_append, Nat.zero_add]
      exact Nat.le_add_right x.length bs.flatten.length
    | succ r =>
      simp only [blockOffset_cons_succ, List.flatten_cons, List.getElem_cons_succ,
        List.length_append, Nat.add_assoc]
      exact Nat.add_le_add_left (ih r (Nat.lt_of_succ_lt_succ hr)) x.length

theorem flatten_last_len {α : Type} :
    ∀ (bs : List (List α)) (r : Nat) (hr : r < bs.length),
      ¬(r + 1 < bs.length) →
        bs.flatten.length = blockOffset bs r + bs[r].length := by
  intro bs
  induction bs with
  | nil => intro r hr; cases hr
  | cons x bs ih =>
    intro r hr hlast
    cases r with
    | zero =>
      cases bs with
      | nil => simp [blockOffset_zero]
      | cons y bs => exact absurd (by simp) hlast
    | succ r =>
      simp only [blockOffset_cons_succ, List.flatten_cons, List.getElem_cons_succ,
        List.length_append, Nat.add_assoc]
      have := ih r (Nat.lt_of_succ_lt_succ hr) (fun hc => hlast (Nat.succ_lt_succ hc))
      omega

theorem offsetsOk_spec :
    ∀ (parts : List PartData) (a b c : Nat), offsetsOk a b c parts = true →
      ∀ (r : Nat) (hr : r < parts.length),
        parts[r].hdr.offset0 = ((a + blockOffset (nodeBlocks parts) r : Nat) : Int) ∧
        parts[r].hdr.offset2 = ((b + blockOffset (regBlocks parts) r : Nat) : Int) ∧
        parts[r].hdr.offset3 = ((c + blockOffset (ghostBlocks parts) r : Nat) : Int) := by
  intro parts
  induction parts with
  | nil => intro a b c _ r hr; cases hr
  | cons pd parts ih =>
    intro a b c h r hr
    have h' : pd.hdr.offset0 = (a : Int) ∧ pd.hdr.offset2 = (b : Int) ∧
        pd.hdr.offset3 = (c : Int) ∧
        offsetsOk (a + pd.node_data.length) (b + (encodeElems pd.regs).length)
          (c + (encodeElems pd.ghosts).length) parts = true := by
      simpa [offsetsOk, Bool.and_eq_true, and_assoc] using h
    cases r with
    | zero =>
      simp only [List.getElem_cons_zero, nodeBlocks, regBlocks, ghostBlocks,
        blockOffset_zero, Nat.add_zero]
      exact ⟨h'.1, h'.2.1, h'.2.2.1⟩
    | succ r =>
      have hr' : r < parts.length := Nat.lt_of_succ_lt_succ hr
      have := ih (a + pd.node_data.length) (b + (encodeElems pd.regs).length)
        (c + (encodeElems pd.ghosts).length) h'.2.2.2 r hr'
      simp only [List.getElem_cons_succ]
      simp only [nodeBlocks, regBlocks, ghostBlocks, List.map_cons,
        blockOffset_cons_succ] at this ⊢
      refine ⟨?_, ?_, ?_⟩
      · rw [this.1]; congr 1; omega
      · rw [this.2.1]; congr 1; omega
      · rw [this.2.2]; congr 1; omega

end OgsSpec

namespace OgsSpec

theorem partCountsOk_fields (pd : PartData) (h : partCountsOk pd = true) :
    pd.hdr.nodes = (pd.node_data.length : Int) ∧
    pd.hdr.regular_elements = (pd.regs.length : Int) ∧
    pd.hdr.ghost_elements = (pd.ghosts.length : Int) ∧
    pd.node_data.length ≤ intMax ∧
    (encodeElems pd.regs).length ≤ intMax ∧
    (encodeElems pd.ghosts).length ≤ intMax := by
  simpa [partCountsOk, Bool.and_eq_true, and_assoc] using h

theorem inputValid_parts (arity : Int → Option Nat) (parts : List PartData)
    (hv : inputValid arity parts = true) :
    (∀ pd ∈ parts, partCountsOk pd = true ∧
      ∀ e ∈ pd.regs ++ pd.ghosts, arityOkB arity e = true) ∧
    parts.length * 14 ≤ intMax ∧ offsetsOk 0 0 0 parts = true := by
  have hv' := hv
  simp only [inputValid, Bool.and_eq_true, List.all_eq_true,
    decide_eq_true_eq] at hv'
  exact ⟨fun pd hpd => (hv'.1.1 pd hpd), hv'.1.2, hv'.2⟩

theorem getD_map_hdr (parts : List PartData) (r : Nat) (hr : r < parts.length) :
    (parts.map fun pd => pd.hdr).getD r defaultHeader = parts[r].hdr := by
  rw [List.getD_eq_getElem?_getD, List.getElem?_map, List.getElem?_eq_getElem hr]
  rfl

theorem readBinaryDataFromFile_ok {α : Type} (fn : String) (o c : Nat)
    (te : ReadError) (data : List α) (hc : c ≤ intMax) (hb : o + c ≤ data.length) :
    readBinaryDataFromFile fn o c te (some data) = .ok ((data.drop o).take c) := by
  unfold readBinaryDataFromFile
  rw [if_neg (by omega)]
  simp [hb]

theorem blockOffset_succ {α : Type} (bs : List (List α)) (r : Nat)
    (hr : r < bs.length) :
    blockOffset bs (r + 1) = blockOffset bs r + bs[r].length := by
  unfold blockOffset
  rw [List.take_succ, List.getElem?_eq_getElem hr, Option.toList_some,
    List.map_append, List.sum_append]
  simp

theorem next_offset2 (parts : List PartData) (r : Nat) (hr : r < parts.length)
    (hoff : offsetsOk 0 0 0 parts = true) :
    (if r + 1 < parts.length then
        ((parts.map fun pd => pd.hdr).getD (r + 1) defaultHeader).offset2.toNat
      else (encodeEle parts).length)
      = blockOffset (regBlocks parts) r + (encodeElems parts[r].regs).length := by
  have hrr : r < (regBlocks parts).length := by simpa [regBlocks] using hr
  have hget : (regBlocks parts)[r] = encodeElems parts[r].regs := by
    simp [regBlocks]
  by_cases hnext : r + 1 < parts.length
  · rw [if_pos hnext, getD_map_hdr parts (r + 1) hnext,
      (offsetsOk_spec parts 0 0 0 hoff (r + 1) hnext).2.1]
    rw [Int.toNat_natCast, Nat.zero_add,
      blockOffset_succ (regBlocks parts) r hrr, hget]
  · rw [if_neg hnext]
    have hlast : ¬(r + 1 < (regBlocks parts).length) := by
      simpa [regBlocks] using hnext
    have := flatten_last_len (regBlocks parts) r hrr hlast
    rw [hget] at this
    exact this

theorem next_offset3 (parts : List PartData) (r : Nat) (hr : r < parts.length)
    (hoff : offsetsOk 0 0 0 parts = true) :
    (if r + 1 < parts.length then
        ((parts.map fun pd => pd.hdr).getD (r + 1) defaultHeader).offset3.toNat
      else (encodeEleG parts).length)
      = blockOffset (ghostBlocks parts) r + (encodeElems parts[r].ghosts).length := by
  have hrr : r < (ghostBlocks parts).length := by simpa [ghostBlocks] using hr
  have hget : (ghostBlocks parts)[r] = encodeElems parts[r].ghosts := by
    simp [ghostBlocks]
  by_cases hnext : r + 1 < parts.length
  · rw [if_pos hnext, getD_map_hdr parts (r + 1) hnext,
      (offsetsOk_spec parts 0 0 0 hoff (r + 1) hnext).2.2]
    rw [Int.toNat_natCast, Nat.zero_add,
      blockOffset_succ (ghostBlocks parts) r hrr, hget]
  · rw [if_neg hnext]
    have hlast : ¬(r + 1 < (ghostBlocks parts).length) := by
      simpa [ghostBlocks] using hnext
    have := flatten_last_len (ghostBlocks parts) r hrr hlast
    rw [hget] at this
    exact this

end OgsSpec

namespace OgsSpec

theorem readBinaryRank_encode (arity : Int → Option Nat) (base : String)
    (parts : List PartData) (hv : inputValid arity parts = true)
    (r : Nat) (hr : r < parts.length) :
    readBinaryRank arity base parts.length (binFS base parts)
      (parts.map fun pd => pd.hdr) r = assembleOf arity base parts[r] := by
  obtain ⟨hall, h14, hoff⟩ := inputValid_parts arity parts hv
  obtain ⟨hcnt, _⟩ := hall parts[r] (List.getElem_mem hr)
  obtain ⟨hn, hreg, hgh, hnmax, hrmax, hgmax⟩ := partCountsOk_fields _ hcnt
  obtain ⟨ho0, ho2, ho3⟩ := offsetsOk_spec parts 0 0 0 hoff r hr
  simp only [Nat.zero_add] at ho0 ho2 ho3
  have hnTn : parts[r].hdr.nodes.toNat = parts[r].node_data.length := by
    rw [hn]; exact Int.toNat_natCast _
  have ho0Tn : parts[r].hdr.offset0.toNat = blockOffset (nodeBlocks parts) r := by
    rw [ho0]; exact Int.toNat_natCast _
  have ho2Tn : parts[r].hdr.offset2.toNat = blockOffset (regBlocks parts) r := by
    rw [ho2]; exact Int.toNat_natCast _
  have ho3Tn : parts[r].hdr.offset3.toNat = blockOffset (ghostBlocks parts) r := by
    rw [ho3]; exact Int.toNat_natCast _
  have hrn : r < (nodeBlocks parts).length := by simpa [nodeBlocks] using hr
  have hrr : r < (regBlocks parts).length := by simpa [regBlocks] using hr
  have hrg : r < (ghostBlocks parts).length := by simpa [ghostBlocks] using hr
  have hgetn : (nodeBlocks parts)[r] = parts[r].node_data := by simp [nodeBlocks]
  have hgetr : (regBlocks parts)[r] = encodeElems parts[r].regs := by simp [regBlocks]
  have hgetg : (ghostBlocks parts)[r] = encodeElems parts[r].ghosts := by simp [ghostBlocks]
  have hbinNod : (binFS base parts).binNod (binNodName base parts.length) =
      some (encodeNod parts) := by simp [binFS]
  have hbinEle : (binFS base parts).binEle (binEleName base parts.length) =
      some (encodeEle parts) := by simp [binFS]
  have hbinEleG : (binFS base parts).binEleG (binEleGName base parts.length) =
      some (encodeEleG parts) := by simp [binFS]
  have hnodeRead : readBinaryDataFromFile (binNodName base parts.length)
      (blockOffset (nodeBlocks parts) r) parts[r].node_data.length
      .TruncatedNodeStream (some (encodeNod parts)) = .ok parts[r].node_data := by
    have hb : blockOffset (nodeBlocks parts) r + parts[r].node_data.length ≤
        (encodeNod parts).length := by
      have := flatten_len_bound (nodeBlocks parts) r hrn
      rw [hgetn] at this
      exact this
    rw [readBinaryDataFromFile_ok _ _ _ _ _ hnmax hb]
    have := flatten_drop_take (nodeBlocks parts) r hrn
    rw [hgetn] at this
    rw [show (encodeNod parts : List NodeData) = (nodeBlocks parts).flatten from rfl, this]
  have hcnt2 : blockOffset (regBlocks parts) r + (encodeElems parts[r].regs).length -
      blockOffset (regBlocks parts) r = (encodeElems parts[r].regs).length :=
    Nat.add_sub_cancel_left ..
  have heleRead : readBinaryDataFromFile (binEleName base parts.length)
      (blockOffset (regBlocks parts) r) (encodeElems parts[r].regs).length
      .TruncatedElementStream (some (encodeEle parts)) = .ok (encodeElems parts[r].regs) := by
    have hb : blockOffset (regBlocks parts) r + (encodeElems parts[r].regs).length ≤
        (encodeEle parts).length := by
      have := flatten_len_bound (regBlocks parts) r hrr
      rw [hgetr] at this
      exact this
    rw [readBinaryDataFromFile_ok _ _ _ _ _ hrmax hb]
    have := flatten_drop_take (regBlocks parts) r hrr
    rw [hgetr] at this
    rw [show (encodeEle parts : List Int) = (regBlocks parts).flatten from rfl, this]
  have hgRead : readBinaryDataFromFile (binEleGName base parts.length)
      (blockOffset (ghostBlocks parts) r) (encodeElems parts[r].ghosts).length
      .TruncatedElementStream (some (encodeEleG parts)) = .ok (encodeElems parts[r].ghosts) := by
    have hb : blockOffset (ghostBlocks parts) r + (encodeElems parts[r].ghosts).length ≤
        (encodeEleG parts).length := by
      have := flatten_len_bound (ghostBlocks parts) r hrg
      rw [hgetg] at this
      exact this
    rw [readBinaryDataFromFile_ok _ _ _ _ _ hgmax hb]
    have := flatten_drop_take (ghostBlocks parts) r hrg
    rw [hgetg] at this
    rw [show (encodeEleG parts : List Int) = (ghostBlocks parts).flatten from rfl, this]
  simp only [readBinaryRank, getD_map_hdr parts r hr, hbinNod, hbinEle, hbinEleG,
    hnTn, ho0Tn, ho2Tn, ho3Tn, hnodeRead,
    next_offset2 parts r hr hoff, next_offset3 parts r hr hoff,
    Nat.add_sub_cancel_left, heleRead, hgRead]
  rfl

end OgsSpec

namespace OgsSpec

theorem encodeNod_cons (pd : PartData) (parts : List PartData) :
    encodeNod (pd :: parts) = pd.node_data ++ encodeNod parts := by
  simp [encodeNod]

theorem encodeAscElems_cons (pd : PartData) (parts : List PartData) :
    encodeAscElems (pd :: parts) =
      encodeElems pd.regs ++ (encodeElems pd.ghosts ++ encodeAscElems parts) := by
  simp [encodeAscElems]

theorem readBinaryAll_encode (arity : Int → Option Nat) (base : String)
    (parts : List PartData) (hv : inputValid arity parts = true) :
    readBinaryAll arity base parts.length (binFS base parts) =
      parts.map (assembleOf arity base) := by
  obtain ⟨hall, h14, hoff⟩ := inputValid_parts arity parts hv
  have hcfg : (binFS base parts).binCfg (binCfgName base parts.length) =
      some (encodeBinCfg parts) := by simp [binFS]
  have hcfgRead : readBinaryDataFromFile (binCfgName base parts.length) 0
      (parts.length * 14) .MalformedHeader (some (encodeBinCfg parts)) =
      .ok (encodeBinCfg parts) := by
    rw [readBinaryDataFromFile_ok _ _ _ _ _ h14
      (by rw [length_encodeBinCfg]; omega)]
    rw [List.drop_zero, ← length_encodeBinCfg parts, List.take_length]
  simp only [readBinaryAll, hcfg, hcfgRead, parseHeaders_encode]
  apply List.ext_getElem
  · simp
  · intro i h1 h2
    simp only [List.getElem_map, List.getElem_range]
    exact readBinaryRank_encode arity base parts hv i (by simpa using h2)

theorem dispatchList_encode (arity : Int → Option Nat) :
    ∀ (parts : List PartData),
      (∀ pd ∈ parts, partCountsOk pd = true ∧
        ∀ e ∈ pd.regs ++ pd.ghosts, arityOkB arity e = true) →
      dispatchList arity parts.length (encodeBinCfg parts) (encodeNod parts)
        (encodeAscElems parts) = some (parts.map canonicalPayload) := by
  intro parts
  induction parts with
  | nil => intro _; rfl
  | cons pd rest ih =>
    intro hall
    obtain ⟨hcnt, har⟩ := hall pd (List.mem_cons_self pd rest)
    obtain ⟨hn, hreg, hgh, _, _, _⟩ := partCountsOk_fields pd hcnt
    have harR : ∀ e ∈ pd.regs, arityOkB arity e = true :=
      fun e he => har e (List.mem_append_left _ he)
    have harG : ∀ e ∈ pd.ghosts, arityOkB arity e = true :=
      fun e he => har e (List.mem_append_right _ he)
    have hnTn : pd.hdr.nodes.toNat = pd.node_data.length := by
      rw [hn]; exact Int.toNat_natCast _
    have hregTn : pd.hdr.regular_elements.toNat = pd.regs.length := by
      rw [hreg]; exact Int.toNat_natCast _
    have hghTn : pd.hdr.ghost_elements.toNat = pd.ghosts.length := by
      rw [hgh]; exact Int.toNat_natCast _
    have hrest : ∀ x ∈ rest, partCountsOk x = true ∧
        ∀ e ∈ x.regs ++ x.ghosts, arityOkB arity e = true :=
      fun x hx => hall x (List.mem_cons_of_mem pd hx)
    show dispatchList arity (rest.length + 1) (encodeBinCfg (pd :: rest))
      (encodeNod (pd :: rest)) (encodeAscElems (pd :: rest)) = _
    rw [encodeBinCfg_cons, encodeNod_cons, encodeAscElems_cons]
    simp only [dispatchList, dispatchOne, parseHeader_encode, hnTn, hregTn, hghTn]
    rw [if_pos (by simp)]
    rw [List.take_left, List.drop_left]
    rw [decodeElems_encode arity pd.regs _ harR]
    simp only
    rw [decodeElems_encode arity pd.ghosts _ harG]
    simp only
    rw [ih hrest]
    rfl

theorem recvASCII_canonical (arity : Int → Option Nat) (base : String)
    (pd : PartData) (hn : pd.hdr.nodes = (pd.node_data.length : Int)) :
    recvASCII arity base (canonicalPayload pd) = assembleOf arity base pd := by
  unfold recvASCII canonicalPayload assembleOf
  rw [if_neg]
  rw [hn]
  exact Int.not_lt.mpr (Int.natCast_nonneg _)

theorem readASCIIAll_encode (arity : Int → Option Nat) (base : String)
    (parts : List PartData) (hv : inputValid arity parts = true) :
    readASCIIAll arity base parts.length (ascFS base parts) =
      collectivize parts.length (parts.map (assembleOf arity base)) := by
  obtain ⟨hall, _, _⟩ := inputValid_parts arity parts hv
  have hc : (ascFS base parts).ascCfg (ascCfgName base parts.length) =
      some (encodeBinCfg parts) := by simp [ascFS]
  have hnod : (ascFS base parts).ascNodes (ascNodesName base parts.length) =
      some (encodeNod parts) := by simp [ascFS]
  have hele : (ascFS base parts).ascElems (ascElemsName base parts.length) =
      some (encodeAscElems parts) := by simp [ascFS]
  simp only [readASCIIAll, hc, hnod, hele, dispatchASCII,
    dispatchList_encode arity parts hall]
  congr 1
  rw [List.map_map]
  apply List.map_congr_left
  intro pd hpd
  exact recvASCII_canonical arity base pd (partCountsOk_fields pd (hall pd hpd).1).1

theorem read_binFS (arity : Int → Option Nat) (base : String)
    (parts : List PartData) (hv : inputValid arity parts = true) :
    read arity base parts.length (binFS base parts) =
      (collectivize parts.length (parts.map (assembleOf arity base))).1 := by
  unfold read readFull
  rw [if_neg (show ¬(parts.length ≠ (binFS base parts).nparts) from fun h => h rfl)]
  rw [if_pos (by simp [binFS])]
  rw [readBinaryAll_encode arity base parts hv]

theorem read_ascFS (arity : Int → Option Nat) (base : String)
    (parts : List PartData) (hv : inputValid arity parts = true) :
    read arity base parts.length (ascFS base parts) =
      (collectivize parts.length (parts.map (assembleOf arity base))).1 := by
  unfold read readFull
  rw [if_neg (show ¬(parts.length ≠ (ascFS base parts).nparts) from fun h => h rfl)]
  rw [if_neg (by simp [ascFS])]
  rw [readASCIIAll_encode arity base parts hv]

/-- C2: the binary and the text on-disk encodings of the same logical mesh
partitioning produce, rank by rank, structurally equal meshes (same
global-id sequences, same element decompositions) — cross-encoding
idempotence of `readBinary` and `readASCII` under `read`. -/
theorem readBinary_readASCII_equivalent (arity : Int → Option Nat) (base : String)
    (parts : List PartData) (hv : inputValid arity parts = true) :
    read arity base parts.length (binFS base parts) =
      read arity base parts.length (ascFS base parts) := by
  rw [read_binFS arity base parts hv, read_ascFS arity base parts hv]

end OgsSpec

namespace OgsSpec

theorem readBinaryDataFromFile_ok_len {α : Type} (fn : String) (o c : Nat)
    (te : ReadError) (content : Option (List α)) (out : List α)
    (h : readBinaryDataFromFile fn o c te content = .ok out) : out.length = c := by
  unfold readBinaryDataFromFile at h
  split at h
  · exact absurd h (by simp)
  · split at h
    · exact absurd h (by simp)
    · split at h
      · cases h
        simp only [List.length_take, List.length_drop]
        omega
      · exact absurd h (by simp)

theorem checkIds_ok_lt (n : Int) :
    ∀ (ids : List Int) (out : List Nat), checkIds n ids = .ok out →
      ∀ i ∈ out, (i : Int) < n := by
  intro ids
  induction ids with
  | nil => intro out h i hi; cases h; cases hi
  | cons id rest ih =>
    intro out h i hi
    simp only [checkIds] at h
    split_ifs at h with hgood
    · cases hrec : checkIds n rest with
      | error e => rw [hrec] at h; exact absurd h (by simp)
      | ok ids2 =>
        rw [hrec] at h
        simp only [Except.ok.injEq] at h
        subst h
        rcases List.mem_cons.mp hi with rfl | hmem
        · rw [Int.toNat_of_nonneg hgood.1]; exact hgood.2
        · exact ih ids2 hrec i hmem

theorem checkIds_bad (n : Int) :
    ∀ (ids : List Int), (∃ id ∈ ids, ¬(0 ≤ id ∧ id < n)) →
      checkIds n ids = .error .DanglingElementReference := by
  intro ids
  induction ids with
  | nil => intro h; rcases h with ⟨id, hm, _⟩; cases hm
  | cons id rest ih =>
    intro h
    simp only [checkIds]
    by_cases hg : 0 ≤ id ∧ id < n
    · rw [if_pos hg]
      have hbad : ∃ x ∈ rest, ¬(0 ≤ x ∧ x < n) := by
        rcases h with ⟨x, hm, hx⟩
        rcases List.mem_cons.mp hm with rfl | hmem
        · exact absurd hg hx
        · exact ⟨x, hmem, hx⟩
      rw [ih hbad]
    · rw [if_neg hg]

theorem checkIds_good (n : Int) :
    ∀ (ids : List Int), (∀ id ∈ ids, 0 ≤ id ∧ id < n) →
      ∃ out, checkIds n ids = .ok out := by
  intro ids
  induction ids with
  | nil => intro _; exact ⟨[], rfl⟩
  | cons id rest ih =>
    intro h
    rcases ih (fun x hx => h x (List.mem_cons_of_mem id hx)) with ⟨out, hout⟩
    refine ⟨id.toNat :: out, ?_⟩
    simp only [checkIds]
    rw [if_pos (h id (List.mem_cons_self id rest)), hout]

theorem setElements_ok_bound (n : Int) :
    ∀ (eds : List ElementData) (ms : List MeshElement),
      setElements n eds = .ok ms →
      ∀ e ∈ ms, ∀ i ∈ e.nodes, (i : Int) < n := by
  intro eds
  induction eds with
  | nil => intro ms h e he; cases h; cases he
  | cons ed rest ih =>
    intro ms h e he
    simp only [setElements] at h
    cases hc : checkIds n ed.node_ids with
    | error e2 => rw [hc] at h; exact absurd h (by simp)
    | ok ids =>
      rw [hc] at h
      cases hs : setElements n rest with
      | error e2 => rw [hs] at h; exact absurd h (by simp)
      | ok ms2 =>
        rw [hs] at h
        simp only [Except.ok.injEq] at h
        subst h
        rcases List.mem_cons.mp he with rfl | hmem
        · exact fun i hi => checkIds_ok_lt n ed.node_ids ids hc i hi
        · exact ih ms2 hs e hmem

theorem setElements_bad (n : Int) :
    ∀ (eds : List ElementData),
      (∃ ed ∈ eds, ∃ id ∈ ed.node_ids, ¬(0 ≤ id ∧ id < n)) →
      setElements n eds = .error .DanglingElementReference := by
  intro eds
  induction eds with
  | nil => intro h; rcases h with ⟨ed, hm, _⟩; cases hm
  | cons ed rest ih =>
    intro h
    simp only [setElements]
    by_cases hed : ∃ id ∈ ed.node_ids, ¬(0 ≤ id ∧ id < n)
    · rw [checkIds_bad n ed.node_ids hed]
    · have hgood : ∀ id ∈ ed.node_ids, 0 ≤ id ∧ id < n := by
        intro id hid
        by_contra hc
        exact hed ⟨id, hid, hc⟩
      rcases checkIds_good n ed.node_ids hgood with ⟨out, hout⟩
      rw [hout]
      have hbad : ∃ x ∈ rest, ∃ id ∈ x.node_ids, ¬(0 ≤ id ∧ id < n) := by
        rcases h with ⟨x, hm, hx⟩
        rcases List.mem_cons.mp hm with rfl | hmem
        · exact absurd hx hed
        · exact ⟨x, hmem, hx⟩
      rw [ih hbad]

theorem assemble_ok_inv (arity : Int → Option Nat) (name : String)
    (hdr : PartitionedMeshInfo) (nd : List NodeData) (eb gb : List Int)
    (m : NodePartitionedMesh) (h : assemble arity name hdr nd eb gb = .ok m) :
    m.name = name ∧ m.header = hdr ∧
    m.mesh_nodes = nd.map (fun d => (⟨d.x, d.y, d.z⟩ : Node)) ∧
    m.glb_node_ids = nd.map (fun d => d.index) ∧
    ∀ e ∈ m.mesh_elems, ∀ i ∈ e.nodes, (i : Int) < hdr.nodes := by
  unfold assemble at h
  cases hd1 : decodeElems arity hdr.regular_elements.toNat eb with
  | error e => rw [hd1] at h; exact absurd h (by simp)
  | ok pr =>
    obtain ⟨regs, restR⟩ := pr
    simp only [hd1] at h
    by_cases hR : restR = []
    · rw [if_pos hR] at h
      cases hd2 : decodeElems arity hdr.ghost_elements.toNat gb with
      | error e => rw [hd2] at h; exact absurd h (by simp)
      | ok pg =>
        obtain ⟨ghosts, restG⟩ := pg
        simp only [hd2] at h
        by_cases hG : restG = []
        · rw [if_pos hG] at h
          cases hse : setElements hdr.nodes (regs ++ ghosts) with
          | error e => rw [hse] at h; exact absurd h (by simp)
          | ok elems =>
            rw [hse] at h
            simp only [Except.ok.injEq] at h
            subst h
            exact ⟨rfl, rfl, rfl, rfl,
              fun e he => setElements_ok_bound hdr.nodes _ _ hse e he⟩
        · rw [if_neg hG] at h; exact absurd h (by simp)
    · rw [if_neg hR] at h; exact absurd h (by simp)

end OgsSpec

namespace OgsSpec

theorem dispatchOne_len (arity : Int → Option Nat) (cfg : List Int)
    (nods : List NodeData) (elems : List Int) (pay : Payload)
    (rest : List Int × List NodeData × List Int)
    (h : dispatchOne arity cfg nods elems = some (pay, rest)) :
    pay.node_data.length = pay.header.nodes.toNat := by
  unfold dispatchOne at h
  cases hp : parseHeader cfg with
  | none => rw [hp] at h; exact absurd h (by simp)
  | some pr =>
    obtain ⟨hdr, cfgRest⟩ := pr
    simp only [hp] at h
    split_ifs at h with hle
    cases hd1 : decodeElems arity hdr.regular_elements.toNat elems with
    | error e => rw [hd1] at h; exact absurd h (by simp)
    | ok p1 =>
      obtain ⟨regs, elems1⟩ := p1
      simp only [hd1] at h
      cases hd2 : decodeElems arity hdr.ghost_elements.toNat elems1 with
      | error e => rw [hd2] at h; exact absurd h (by simp)
      | ok p2 =>
        obtain ⟨ghosts, elems2⟩ := p2
        simp only [hd2, Option.some.injEq, Prod.mk.injEq] at h
        rw [← h.1]
        simp only [List.length_take]
        omega

theorem dispatchList_len (arity : Int → Option Nat) :
    ∀ (p : Nat) (cfg : List Int) (nods : List NodeData) (elems : List Int)
      (ps : List Payload),
      dispatchList arity p cfg nods elems = some ps →
      ∀ pay ∈ ps, pay.node_data.length = pay.header.nodes.toNat := by
  intro p
  induction p with
  | zero =>
    intro cfg nods elems ps h pay hm
    cases h
    cases hm
  | succ p ih =>
    intro cfg nods elems ps h pay hm
    simp only [dispatchList] at h
    cases h1 : dispatchOne arity cfg nods elems with
    | none => rw [h1] at h; exact absurd h (by simp)
    | some pr =>
      obtain ⟨pay1, rest1⟩ := pr
      obtain ⟨cfg1, nods1, elems1⟩ := rest1
      simp only [h1] at h
      cases h2 : dispatchList arity p cfg1 nods1 elems1 with
      | none => rw [h2] at h; exact absurd h (by simp)
      | some ps1 =>
        rw [h2] at h
        simp only [Option.some.injEq] at h
        subst h
        rcases List.mem_cons.mp hm with rfl | hmem
        · exact dispatchOne_len arity cfg nods elems pay _ h1
        · exact ih cfg1 nods1 elems1 ps1 h2 pay hmem

theorem recvASCII_ok_shape (arity : Int → Option Nat) (name : String)
    (pay : Payload) (m : NodePartitionedMesh)
    (hlen : pay.node_data.length = pay.header.nodes.toNat)
    (h : recvASCII arity name pay = .ok m) :
    m.mesh_nodes.length = m.header.nodes.toNat ∧
    m.glb_node_ids.length = m.mesh_nodes.length ∧
    ∀ e ∈ m.mesh_elems, ∀ i ∈ e.nodes, (i : Int) < m.header.nodes := by
  unfold recvASCII at h
  split_ifs at h with hneg
  obtain ⟨_, hhdr, hmn, hgl, hbd⟩ :=
    assemble_ok_inv arity name pay.header pay.node_data pay.elem_buf pay.ghost_buf m h
  refine ⟨?_, ?_, ?_⟩
  · rw [hmn, List.length_map, hlen, hhdr]
  · rw [hgl, hmn]
    simp
  · rw [hhdr]
    exact hbd

theorem readBinaryRank_ok_shape (arity : Int → Option Nat) (base : String)
    (P : Nat) (fs : FileSystem) (headers : List PartitionedMeshInfo) (r : Nat)
    (m : NodePartitionedMesh)
    (h : readBinaryRank arity base P fs headers r = .ok m) :
    m.mesh_nodes.length = m.header.nodes.toNat ∧
    m.glb_node_ids.length = m.mesh_nodes.length ∧
    ∀ e ∈ m.mesh_elems, ∀ i ∈ e.nodes, (i : Int) < m.header.nodes := by
  simp only [readBinaryRank] at h
  cases h1 : readBinaryDataFromFile (binNodName base P)
      (headers.getD r defaultHeader).offset0.toNat
      (headers.getD r defaultHeader).nodes.toNat .TruncatedNodeStream
      (fs.binNod (binNodName base P)) with
  | error e => rw [h1] at h; exact absurd h (by simp)
  | ok node_data =>
    simp only [h1] at h
    cases h2 : fs.binEle (binEleName base P) with
    | none => rw [h2] at h; exact absurd h (by simp)
    | some eleAll =>
      simp only [h2] at h
      cases h3 : readBinaryDataFromFile (binEleName base P)
          (headers.getD r defaultHeader).offset2.toNat
          ((if r + 1 < P then (headers.getD (r + 1) defaultHeader).offset2.toNat
            else eleAll.length) - (headers.getD r defaultHeader).offset2.toNat)
          .TruncatedElementStream (some eleAll) with
      | error e => rw [h3] at h; exact absurd h (by simp)
      | ok elem_buf =>
        simp only [h3] at h
        cases h4 : fs.binEleG (binEleGName base P) with
        | none => rw [h4] at h; exact absurd h (by simp)
        | some gAll =>
          simp only [h4] at h
          cases h5 : readBinaryDataFromFile (binEleGName base P)
              (headers.getD r defaultHeader).offset3.toNat
              ((if r + 1 < P then (headers.getD (r + 1) defaultHeader).offset3.toNat
                else gAll.length) - (headers.getD r defaultHeader).offset3.toNat)
              .TruncatedElementStream (some gAll) with
          | error e => rw [h5] at h; exact absurd h (by simp)
          | ok ghost_buf =>
            simp only [h5] at h
            obtain ⟨_, hhdr, hmn, hgl, hbd⟩ :=
              assemble_ok_inv arity base (headers.getD r defaultHeader)
                node_data elem_buf ghost_buf m h
            refine ⟨?_, ?_, ?_⟩
            · rw [hmn, List.length_map, hhdr,
                readBinaryDataFromFile_ok_len _ _ _ _ _ _ h1]
            · rw [hgl, hmn]
              simp
            · rw [hhdr]
              exact hbd

end OgsSpec

namespace OgsSpec

theorem getD_none_some {α : Type} (l : List (Option α)) (r : Nat) (m : α)
    (h : l.getD r none = some m) : l[r]? = some (some m) := by
  rw [List.getD_eq_getElem?_getD] at h
  cases hq : l[r]? with
  | none => rw [hq] at h; exact absurd h (by simp)
  | some o =>
    rw [hq] at h
    simp only [Option.getD_some] at h
    rw [h]

theorem replicate_getElem_eq {α : Type} (n r : Nat) (a b : α)
    (h : (List.replicate n a)[r]? = some b) : b = a := by
  rw [List.getElem?_replicate] at h
  split at h
  · injection h with h
    exact h.symm
  · exact absurd h (by simp)

theorem collectivize_getElem_ok (P : Nat)
    (rs : List (Except ReadError NodePartitionedMesh)) (r : Nat)
    (m : NodePartitionedMesh)
    (h : (collectivize P rs).1[r]? = some (some m)) : rs[r]? = some (.ok m) := by
  unfold collectivize at h
  cases hfe : firstError rs with
  | some e =>
    rw [hfe] at h
    have := replicate_getElem_eq _ _ _ _ h
    exact absurd this (by simp)
  | none =>
    rw [hfe] at h
    simp only [List.getElem?_map] at h
    cases hrs : rs[r]? with
    | none => rw [hrs] at h; exact absurd h (by simp)
    | some er =>
      rw [hrs] at h
      cases er with
      | error e =>
        rw [Option.map_some'] at h
        injection h with h
        simp [Except.toOption] at h
      | ok a =>
        rw [Option.map_some'] at h
        injection h with h
        simp only [Except.toOption] at h
        injection h with h
        rw [h]

theorem replicate_none_getD {α : Type} (n r : Nat) :
    (List.replicate n (none : Option α)).getD r none = none := by
  rw [List.getD_eq_getElem?_getD, List.getElem?_replicate]
  split <;> rfl

theorem read_some_shape (arity : Int → Option Nat) (base : String)
    (commSize : Nat) (fs : FileSystem) (r : Nat) (m : NodePartitionedMesh)
    (h : (read arity base commSize fs).getD r none = some m) :
    m.mesh_nodes.length = m.header.nodes.toNat ∧
    m.glb_node_ids.length = m.mesh_nodes.length ∧
    ∀ e ∈ m.mesh_elems, ∀ i ∈ e.nodes, (i : Int) < m.header.nodes := by
  have hq := getD_none_some _ _ _ h
  unfold read readFull at hq
  split_ifs at hq with h1 h2
  · have := replicate_getElem_eq _ _ _ _ hq
    exact absurd this (by simp)
  · -- binary path
    have her := collectivize_getElem_ok _ _ _ _ hq
    unfold readBinaryAll at her
    split at her
    · have := replicate_getElem_eq _ _ _ _ her
      exact absurd this (by simp)
    · split at her
      · have := replicate_getElem_eq _ _ _ _ her
        exact absurd this (by simp)
      · rw [List.getElem?_map] at her
        cases hrr : (List.range commSize)[r]? with
        | none => rw [hrr] at her; exact absurd her (by simp)
        | some i =>
          rw [hrr] at her
          have hlt : r < (List.range commSize).length := by
            by_contra hc
            rw [List.getElem?_eq_none (le_of_not_lt hc)] at hrr
            cases hrr
          have hri : (List.range commSize)[r]? = some r := by
            rw [List.getElem?_eq_getElem hlt, List.getElem_range]
          have hir : i = r := by
            have h5 := hri.symm.trans hrr
            injection h5 with h5
            exact h5.symm
          subst hir
          rw [Option.map_some'] at her
          injection her with her
          exact readBinaryRank_ok_shape _ _ _ _ _ _ _ her
  · -- text path
    unfold readASCIIAll at hq
    split at hq
    · have := replicate_getElem_eq _ _ _ _ hq
      exact absurd this (by simp)
    · split at hq
      · have := replicate_getElem_eq _ _ _ _ hq
        exact absurd this (by simp)
      · split at hq
        · have := replicate_getElem_eq _ _ _ _ hq
          exact absurd this (by simp)
        · have her := collectivize_getElem_ok _ _ _ _ hq
          rw [List.getElem?_map] at her
          cases hp : (dispatchASCII arity commSize _ _ _)[r]? with
          | none => rw [hp] at her; exact absurd her (by simp)
          | some pay =>
            rw [hp] at her
            rw [Option.map_some'] at her
            injection her with her
            revert hp
            unfold dispatchASCII
            cases hdl : dispatchList arity commSize _ _ _ with
            | some ps =>
              intro hp
              have hlt : r < ps.length := by
                by_contra hc
                rw [List.getElem?_eq_none (le_of_not_lt hc)] at hp
                cases hp
              have hpe : ps[r] = pay := by
                have h3 := List.getElem?_eq_getElem hlt
                rw [hp] at h3
                injection h3 with h3
                exact h3.symm
              have hmem : pay ∈ ps := by
                rw [← hpe]
                exact List.getElem_mem hlt
              exact recvASCII_ok_shape arity base pay m
                (dispatchList_len arity commSize _ _ _ ps hdl pay hmem) her
            | none =>
              intro hp
              have hpay := replicate_getElem_eq _ _ _ _ hp
              rw [hpay] at her
              exact absurd her (by simp [recvASCII, sentinelPayload, sentinelHeader])

end OgsSpec

namespace OgsSpec

/-- C2 witness: the Scenario A partitioning, encoded both ways, is read
identically on both ranks. -/
theorem readBinary_readASCII_equivalent_witness :
    inputValid wArity wParts = true ∧
    read wArity "m" wParts.length (binFS "m" wParts) =
      read wArity "m" wParts.length (ascFS "m" wParts) :=
  ⟨by decide, readBinary_readASCII_equivalent wArity "m" wParts (by decide)⟩

/-- C3: `setNodes` builds the node vector and the parallel global-id
vector in input order — `glb_node_ids[i] = node_data[i].global_id`,
coordinates copied verbatim, never re-sorted (so the owned prefix
`[0, active_nodes)` and the ghost suffix are exactly those of the input
ordering) — and every successful `read` returns a node vector of length
`header.nodes` with its parallel global-id vector. -/
theorem setNodes_faithful (nd : List NodeData) (i : Nat)
    (arity : Int → Option Nat) (base : String) (commSize : Nat)
    (fs : FileSystem) (r : Nat) (m : NodePartitionedMesh) :
    (setNodes nd).1.length = nd.length ∧
    (setNodes nd).2[i]? = nd[i]?.map (fun d => d.index) ∧
    (setNodes nd).1[i]? = nd[i]?.map (fun d => (⟨d.x, d.y, d.z⟩ : Node)) ∧
    ((read arity base commSize fs).getD r none = some m →
      m.mesh_nodes.length = m.header.nodes.toNat ∧
      m.glb_node_ids.length = m.mesh_nodes.length) := by
  refine ⟨by simp [setNodes], ?_, ?_, ?_⟩
  · simp [setNodes, List.getElem?_map]
  · simp [setNodes, List.getElem?_map]
  · intro h
    exact ⟨(read_some_shape arity base commSize fs r m h).1,
      (read_some_shape arity base commSize fs r m h).2.1⟩

/-- C3 witness: a successful single-partition read; the node vector length
equals `header.nodes`. -/
theorem setNodes_faithful_witness :
    (read wArity "w" 1 (binFS "w" wPartsOne)).getD 0 none = some wMeshOne ∧
    wMeshOne.mesh_nodes.length = wMeshOne.header.nodes.toNat :=
  ⟨by decide,
   ((setNodes_faithful [] 0 wArity "w" 1 (binFS "w" wPartsOne) 0 wMeshOne).2.2.2
     (by decide)).1⟩

/-- C5: `setElements` interprets every node reference as a local index
into the node vector: on success every referenced index is below the
node count, an out-of-range index fails with `DanglingElementReference`,
and every mesh a successful `read` returns references only local indices
below `header.nodes`. -/
theorem setElements_local_index_bounds (n : Int) (eds : List ElementData)
    (ms : List MeshElement) (arity : Int → Option Nat) (base : String)
    (commSize : Nat) (fs : FileSystem) (r : Nat) (m : NodePartitionedMesh) :
    (setElements n eds = .ok ms → ∀ e ∈ ms, ∀ i ∈ e.nodes, (i : Int) < n) ∧
    ((∃ ed ∈ eds, ∃ id ∈ ed.node_ids, ¬(0 ≤ id ∧ id < n)) →
      setElements n eds = .error .DanglingElementReference) ∧
    ((read arity base commSize fs).getD r none = some m →
      ∀ e ∈ m.mesh_elems, ∀ i ∈ e.nodes, (i : Int) < m.header.nodes) :=
  ⟨fun h => setElements_ok_bound n eds ms h,
   fun h => setElements_bad n eds h,
   fun h => (read_some_shape arity base commSize fs r m h).2.2⟩

/-- C5 witness: an element referencing local index 5 in a 3-node partition
is rejected with `DanglingElementReference`. -/
theorem setElements_local_index_bounds_witness :
    setElements 3 [⟨7, 3, [0, 1, 5]⟩] = .error .DanglingElementReference :=
  (setElements_local_index_bounds 3 [⟨7, 3, [0, 1, 5]⟩] [] wArity "" 1
      (binFS "" []) 0 wMeshOne).2.1
    ⟨⟨7, 3, [0, 1, 5]⟩, by decide, 5, by decide, by decide⟩

/-- C6: `read` probes the binary encoding first, via the file named
`base ++ "_partitioned_msh_cfg" ++ P ++ ".bin"`, and falls back to the
text files `base ++ "_partitioned_cfg" ++ P ++ ".msh"` etc. only when the
binary probe fails; any failure yields null on every rank. -/
theorem read_probes_binary_first (arity : Int → Option Nat) (base : String)
    (P : Nat) (fs : FileSystem) (h : P = fs.nparts) :
    binCfgName base P = base ++ "_partitioned_msh_cfg" ++ toString P ++ ".bin" ∧
    ascCfgName base P = base ++ "_partitioned_cfg" ++ toString P ++ ".msh" ∧
    ((fs.binCfg (binCfgName base P)).isSome = true →
      readFull arity base P fs = collectivize P (readBinaryAll arity base P fs)) ∧
    (fs.binCfg (binCfgName base P) = none →
      readFull arity base P fs = readASCIIAll arity base P fs) ∧
    ((readFull arity base P fs).2.isSome = true →
      read arity base P fs = List.replicate P none) := by
  refine ⟨rfl, rfl, ?_, ?_, fun hs => readFull_diag_null arity base P fs hs⟩
  · intro hp
    unfold readFull
    rw [if_neg (fun hne => hne h), if_pos hp]
  · intro hp
    unfold readFull
    rw [if_neg (fun hne => hne h), if_neg (by simp [hp])]

/-- C6 witness: with the binary configuration file present the binary path
is taken. -/
theorem read_probes_binary_first_witness :
    (2 : Nat) = (binFS "m" wParts).nparts ∧
    readFull wArity "m" 2 (binFS "m" wParts) =
      collectivize 2 (readBinaryAll wArity "m" 2 (binFS "m" wParts)) :=
  ⟨by decide,
   (read_probes_binary_first wArity "m" 2 (binFS "m" wParts) (by decide)).2.2.1
     (by decide)⟩

/-- C7 counterexample: the reader accepts (returns a mesh for) an input
whose header violates the spec section 3 invariants
(`active_nodes = 5 > nodes = 1`, `regular_elements + ghost_elements = 0`),
so not every accepted header satisfies them. -/
theorem headerInvariants_not_enforced_cex :
    (read wArity "m" 1 (binFS "m" cexParts)).map
      (Option.map fun m => headerOk m.header) = [some false] := by
  decide

theorem read_binFS_header (arity : Int → Option Nat) (base : String)
    (parts : List PartData) (r : Nat) (m : NodePartitionedMesh)
    (hv : inputValid arity parts = true)
    (h : (read arity base parts.length (binFS base parts)).getD r none = some m) :
    ∃ hr : r < parts.length, m.header = parts[r].hdr := by
  have hq := getD_none_some _ _ _ h
  rw [read_binFS arity base parts hv] at hq
  have her := collectivize_getElem_ok _ _ _ _ hq
  rw [List.getElem?_map] at her
  cases hp : parts[r]? with
  | none => rw [hp] at her; exact absurd her (by simp)
  | some pd =>
    rw [hp] at her
    rw [Option.map_some'] at her
    injection her with her
    have hr : r < parts.length := by
      by_contra hc
      rw [List.getElem?_eq_none (le_of_not_lt hc)] at hp
      cases hp
    have hpd : parts[r] = pd := by
      have h3 := List.getElem?_eq_getElem hr
      rw [hp] at h3
      injection h3 with h3
      exact h3.symm
    refine ⟨hr, ?_⟩
    have hinv := assemble_ok_inv arity base pd.hdr pd.node_data _ _ m her
    rw [hinv.2.1, hpd]

/-- C7 (amended): the reader does not validate the spec section 3 header
invariants; it retains headers verbatim, so whenever the on-disk header
table satisfies them (per-header invariants, monotone offsets, active-node
sums), the header of every mesh the reader accepts satisfies them too. -/
theorem acceptedHeaders_invariant_of_input (arity : Int → Option Nat)
    (base : String) (parts : List PartData) (r : Nat)
    (m : NodePartitionedMesh) (hv : inputValid arity parts = true)
    (hinv : headersInvariant (parts.map fun pd => pd.hdr) = true)
    (h : (read arity base parts.length (binFS base parts)).getD r none = some m) :
    headerOk m.header = true ∧ m.header ∈ parts.map fun pd => pd.hdr := by
  obtain ⟨hr, hhdr⟩ := read_binFS_header arity base parts r m hv h
  have hmem : m.header ∈ parts.map fun pd => pd.hdr := by
    rw [hhdr]
    exact List.mem_map.mpr ⟨parts[r], List.getElem_mem hr, rfl⟩
  have hall : ∀ x ∈ parts.map fun pd => pd.hdr, headerOk x = true := by
    have h2 := hinv
    simp only [headersInvariant, Bool.and_eq_true, List.all_eq_true] at h2
    exact h2.1.1
  exact ⟨hall _ hmem, hmem⟩

/-- C7 amended witness: the Scenario A headers satisfy the invariants and
the accepted rank-0 header does too. -/
theorem acceptedHeaders_invariant_of_input_witness :
    headersInvariant (wParts.map fun pd => pd.hdr) = true ∧
    headerOk wMeshA.header = true :=
  ⟨by decide,
   (acceptedHeaders_invariant_of_input wArity "m" wParts 0 wMeshA (by decide)
     (by decide) (by decide)).1⟩

end OgsSpec
